import Mathlib

/-!
Verification development for the RIOT 6LoWPAN adaptation layer
(`sys/net/sixlowpan`).  The public surface of the layer is declared in
`sys/net/sixlowpan/include/sixlowpan/lowpan.h`: the normative dispatch
constants of RFC 4944 / RFC 6282, the frame type delivered to registered
consumers, and the prototypes of the init / send / register operations.
The compression, fragmentation and reassembly logic itself is not part of
the interface header; where a property concerns that logic the functions
below are modelled from the design specification (their doc comments say
so explicitly), faithful to its wording.  All machine integers are
embedded as `Nat` with explicit `% 2^w` at the places where the C types
truncate.
-/

/-! ## Dispatch constants from `lowpan.h` -/

/-- 6LoWPAN dispatch value for uncompressed IPv6 packets (RFC 4944 §5.1). -/
def SIXLOWPAN_IPV6_DISPATCH : ℕ := 0x41

/-- 6LoWPAN dispatch value for IPv6 header compression, part of the first
byte of LOWPAN_IPHC (RFC 6282 §3.1.1). -/
def SIXLOWPAN_IPHC1_DISPATCH : ℕ := 0x60

/-- Flag for Flow Label elision (first byte of LOWPAN_IPHC). -/
def SIXLOWPAN_IPHC1_FL_C : ℕ := 0x10

/-- Flag for Traffic Class elision (first byte of LOWPAN_IPHC). -/
def SIXLOWPAN_IPHC1_TC_C : ℕ := 0x08

/-- Flag for Next Header Compression (first byte of LOWPAN_IPHC). -/
def SIXLOWPAN_IPHC1_NH : ℕ := 0x04

/-- Flag for Context Identifier Extension (second byte of LOWPAN_IPHC). -/
def SIXLOWPAN_IPHC2_CID : ℕ := 0x80

/-- Flag for Source Address Compression (second byte of LOWPAN_IPHC). -/
def SIXLOWPAN_IPHC2_SAC : ℕ := 0x40

/-- Bits for Source Address Mode (second byte of LOWPAN_IPHC). -/
def SIXLOWPAN_IPHC2_SAM : ℕ := 0x30

/-- Flag for Destination Address Compression (second byte of LOWPAN_IPHC). -/
def SIXLOWPAN_IPHC2_DAC : ℕ := 0x04

/-- Bits for Destination Address Mode (second byte of LOWPAN_IPHC). -/
def SIXLOWPAN_IPHC2_DAM : ℕ := 0x03

/-- Flag for Multicast Compression (second byte of LOWPAN_IPHC). -/
def SIXLOWPAN_IPHC2_M : ℕ := 0x08

/-- 6LoWPAN dispatch value for the fragmentation header of a first
fragment (RFC 4944 §5.1). -/
def SIXLOWPAN_FRAG1_DISPATCH : ℕ := 0xc0

/-- 6LoWPAN dispatch value for the fragmentation header of a subsequent
fragment (RFC 4944 §5.1). -/
def SIXLOWPAN_FRAGN_DISPATCH : ℕ := 0xe0

/-- 6LoWPAN fragmentation header length for a first fragment. -/
def SIXLOWPAN_FRAG1_HDR_LEN : ℕ := 4

/-- 6LoWPAN fragmentation header length for a subsequent fragment. -/
def SIXLOWPAN_FRAGN_HDR_LEN : ℕ := 5

/-! ## Basic data model -/

/-- An IPv6 address, split as the 6LoWPAN compressor sees it: a 64-bit
routing portion (the address bits that a context entry can elide) and a
64-bit interface identifier (the bits derivable from the EUI-64
link-layer address). -/
structure Ipv6Addr where
  pre : ℕ
  iid : ℕ
deriving DecidableEq

/-- A full IPv6 header, the input of the IPHC compressor: version,
traffic class, flow label, payload length, next header, hop limit and
the two addresses. -/
structure Ipv6Header where
  version : ℕ
  trafficClass : ℕ
  flowLabel : ℕ
  payloadLength : ℕ
  nextHeader : ℕ
  hopLimit : ℕ
  src : Ipv6Addr
  dst : Ipv6Addr
deriving DecidableEq

/-- Well-formedness of an IPv6 header: the version is 6 and every field
fits its wire width (8-bit traffic class, 20-bit flow label, 16-bit
payload length, 8-bit next header and hop limit, 64-bit address halves). -/
def ValidHeader (H : Ipv6Header) : Prop :=
  H.version = 6 ∧ H.trafficClass < 2 ^ 8 ∧ H.flowLabel < 2 ^ 20 ∧
    H.payloadLength < 2 ^ 16 ∧ H.nextHeader < 2 ^ 8 ∧ H.hopLimit < 2 ^ 8 ∧
    H.src.pre < 2 ^ 64 ∧ H.src.iid < 2 ^ 64 ∧ H.dst.pre < 2 ^ 64 ∧ H.dst.iid < 2 ^ 64

instance (H : Ipv6Header) : Decidable (ValidHeader H) := by
  unfold ValidHeader; infer_instance

/-- The context table: a small mapping from context identifier (0–15) to
the 64-bit address portion that the identifier elides. -/
def ContextTable : Type := List (ℕ × ℕ)

/-- The link-local routing portion `fe80::/64`; the id-0 context falls
back to it when the table has no explicit entry for id 0. -/
def LINK_LOCAL_PRE : ℕ := 0xfe80 * 2 ^ 48

/-- Modelled from the spec (§4.2): context lookup.  An explicit table
entry wins; the all-zero/link-local context id 0 is implicitly available
even when the table is empty; any other unset id yields "no context". -/
def ctxLookup (C : ContextTable) (cid : ℕ) : Option ℕ :=
  match List.find? (fun e => e.1 == cid) C with
  | some e => some e.2
  | none => if cid = 0 then some LINK_LOCAL_PRE else none

/-! ## Byte-sequence codecs -/

/-- Big-endian serialization of a natural number into `k` bytes (the
low `8*k` bits; the head carries any excess, which well-formed inputs
never have). -/
def natBytes : ℕ → ℕ → List ℕ
  | 0, _ => []
  | k + 1, n => n / 256 ^ k :: natBytes k (n % 256 ^ k)

/-- Big-endian parse of `k` bytes off the front of a stream, returning
the value and the unconsumed remainder. -/
def readBytes : ℕ → List ℕ → Option (ℕ × List ℕ)
  | 0, l => some (0, l)
  | _ + 1, [] => none
  | k + 1, b :: l => (readBytes k l).map fun p => (b * 256 ^ k + p.1, p.2)

/-! ## Interface state (C10): the init operations -/

/-- The engine state established by the init operations: the transceiver
binding, the local PHY-layer address (a `uint8_t` in the C prototype, so
the value stored is the caller's argument reduced mod 2^8), the border
router flag and the initial context table. -/
structure LowpanState where
  trans : ℕ
  r_addr : ℕ
  as_border : ℤ
  ctx : ContextTable

/-- `sixlowpan_lowpan_init(trans, r_addr, as_border)` as declared in
`lowpan.h`: `r_addr` has C type `uint8_t`, so the argument is converted
(reduced mod 2^8) at the call boundary; the context table starts empty. -/
def sixlowpan_lowpan_init (trans r_addr : ℕ) (as_border : ℤ) : LowpanState :=
  ⟨trans, r_addr % 2 ^ 8, as_border, []⟩

/-- `sixlowpan_lowpan_adhoc_init(trans, p, r_addr)` as declared in
`lowpan.h`: like `sixlowpan_lowpan_init` (`r_addr` again `uint8_t`),
additionally seeding context 0 with the advertised routing portion. -/
def sixlowpan_lowpan_adhoc_init (trans : ℕ) (p : Ipv6Addr) (r_addr : ℕ) : LowpanState :=
  ⟨trans, r_addr % 2 ^ 8, 0, [(0, p.pre)]⟩

/-! ## The send operation's return type (C4) -/

/-- The return type of `sixlowpan_lowpan_sendto` exactly as declared in
`lowpan.h`: `void`.  The unit type is the shallow embedding of a C
function that returns nothing. -/
def SendtoReturn : Type := Unit

/-- `sixlowpan_lowpan_sendto(dest, data, data_len)` at its declared
interface: whatever the body does, the declaration returns `void`, so
every invocation hands the caller the same (empty) result. -/
def sixlowpan_lowpan_sendto (dest : ℕ) (data : List ℕ) (data_len : ℕ) : SendtoReturn :=
  ()

/-! ## The delivered frame type (C5) -/

/-- `sixlowpan_lowpan_frame_t` from `lowpan.h`: a length-prefixed byte
stream whose length field has C type `uint8_t`. -/
structure SixlowpanLowpanFrame where
  length : ℕ
  data : List ℕ
deriving DecidableEq

/-- Delivery of a reassembled, decompressed datagram as a
`sixlowpan_lowpan_frame_t`: the byte stream is stored as is, and the
`uint8_t` length field receives the datagram's byte count reduced
mod 2^8. -/
def mkLowpanFrame (payload : List ℕ) : SixlowpanLowpanFrame :=
  ⟨payload.length % 2 ^ 8, payload⟩

/-- The largest datagram size representable by the 11-bit datagram-size
field of the fragmentation headers (spec §4.5): 2047 bytes. -/
def MAX_FRAG_DATAGRAM_SIZE : ℕ := 2 ^ 11 - 1

/-! ## Fragmentation headers on the wire (C3) -/

/-- Modelled from the spec (§3, §4.5): the 4-byte first-fragment header —
the `0xc0`-class dispatch byte carrying the high 3 bits of the 11-bit
datagram size, the size low byte, and the 2-byte datagram tag. -/
def frag1Header (size tag : ℕ) : List ℕ :=
  [SIXLOWPAN_FRAG1_DISPATCH ||| size / 256, size % 256, tag / 256, tag % 256]

/-- Modelled from the spec (§3, §4.5): the 5-byte subsequent-fragment
header — the first-fragment fields with the `0xe0`-class dispatch byte,
plus a 1-byte fragment offset in units of 8 bytes. -/
def fragNHeader (size tag off : ℕ) : List ℕ :=
  [SIXLOWPAN_FRAGN_DISPATCH ||| size / 256, size % 256, tag / 256, tag % 256, off / 8]

/-! ## Fragmentation (spec §4.5) -/

/-- The ways a send can fail before or during transmission (spec §7):
an oversized datagram, a link MTU too small to carry any 8-byte-aligned
fragment payload, or a transceiver failure. -/
inductive SendError where
  | oversized
  | mtuTooSmall
  | transceiverFailure
deriving DecidableEq

/-- One fragment of a datagram as the reassembly side sees it after
dispatch parsing: the datagram tag, the declared total datagram size,
the byte offset of this fragment's payload, and the payload slice. -/
structure Frag where
  tag : ℕ
  size : ℕ
  offset : ℕ
  chunk : List ℕ
deriving DecidableEq

/-- Modelled from the spec (§4.5): emission of the subsequent fragments,
each carrying the next `fn`-byte slice (`fn` a positive multiple of 8)
at the next 8-byte-aligned offset.  The structural `fuel` argument
bounds the recursion by the remaining byte count; callers pass
`rem.length`, which suffices whenever `fn > 0`. -/
def mkSubsequentAux (tag size fn : ℕ) : ℕ → ℕ → List ℕ → List Frag
  | 0, _, _ => []
  | _ + 1, _, [] => []
  | fuel + 1, off, r :: rem =>
      ⟨tag, size, off, (r :: rem).take fn⟩ ::
        mkSubsequentAux tag size fn fuel (off + fn) ((r :: rem).drop fn)

/-- Emission of subsequent fragments starting at offset `off` for the
remaining bytes `rem`. -/
def mkSubsequent (tag size fn off : ℕ) (rem : List ℕ) : List Frag :=
  mkSubsequentAux tag size fn rem.length off rem

/-- The largest 8-byte multiple fitting after the 4-byte FRAG1 header. -/
def frag1Size (mtu : ℕ) : ℕ := (mtu - SIXLOWPAN_FRAG1_HDR_LEN) / 8 * 8

/-- The largest 8-byte multiple fitting after the 5-byte FRAGN header. -/
def fragNSize (mtu : ℕ) : ℕ := (mtu - SIXLOWPAN_FRAGN_HDR_LEN) / 8 * 8

/-- Modelled from the spec (§4.5): the fragmenter.  A datagram larger
than the 11-bit size field can represent is rejected as oversized before
anything is emitted; a datagram that fits the link MTU is emitted as a
single unfragmented frame; otherwise a first fragment carries the
largest 8-byte multiple that fits after the 4-byte FRAG1 header and the
subsequent fragments each carry the largest 8-byte multiple that fits
after the 5-byte FRAGN header. -/
def fragment (payload : List ℕ) (mtu tag : ℕ) : Except SendError (List Frag) :=
  if MAX_FRAG_DATAGRAM_SIZE < payload.length then .error .oversized
  else if payload.length ≤ mtu then .ok [⟨tag, payload.length, 0, payload⟩]
  else if fragNSize mtu = 0 then .error .mtuTooSmall
  else .ok (⟨tag, payload.length, 0, payload.take (frag1Size mtu)⟩ ::
    mkSubsequent tag payload.length (fragNSize mtu) (frag1Size mtu)
      (payload.drop (frag1Size mtu)))

/-! ## Reassembly slots (spec §4.6) -/

/-- Overwrite `buf[off], buf[off+1], …` with the bytes of `c`, leaving
the rest of `buf` unchanged; bytes of `c` that would land past the end
of `buf` are discarded (the caller checks the fit first). -/
def writeChunk : List ℕ → ℕ → List ℕ → List ℕ
  | buf, _, [] => buf
  | [], _, _ :: _ => []
  | _ :: buf, 0, c :: cs => c :: writeChunk buf 0 cs
  | b :: buf, o + 1, c :: cs => b :: writeChunk buf o (c :: cs)

/-- The set of byte offsets covered by a fragment's payload. -/
def fragRange (f : Frag) : Finset ℕ := Finset.Ico f.offset (f.offset + f.chunk.length)

/-- One reassembly slot (spec §3): source link-layer address, datagram
tag, declared total size, the set of byte offsets received so far, the
payload storage, and the time of the last update (for LRU eviction). -/
structure Slot where
  src : ℕ
  tag : ℕ
  size : ℕ
  received : Finset ℕ
  buf : List ℕ
  lastUpdated : ℕ
deriving DecidableEq

/-- Modelled from the spec (§4.6): applying one fragment to a `filling`
slot at time `t`.  A fragment for a different tag leaves the slot alone;
a fragment whose end would exceed the declared total size fails the slot
(`none` = evicted as corrupt); otherwise the payload is written at the
stated offset — duplicates rewrite the same bytes — and the received-set
absorbs the fragment's range. -/
def applyFrag (s : Slot) (f : Frag) (t : ℕ) : Option Slot :=
  if f.tag = s.tag then
    if f.offset + f.chunk.length ≤ s.size then
      some { s with received := s.received ∪ fragRange f,
                    buf := writeChunk s.buf f.offset f.chunk,
                    lastUpdated := t }
    else none
  else some s

/-- A slot is complete exactly when every byte offset in
`[0, total size)` has been received (spec §3). -/
def slotComplete (s : Slot) : Bool := decide (Finset.range s.size ⊆ s.received)

/-- A fresh `filling` slot: nothing received, storage zeroed. -/
def freshSlot (src tag size t : ℕ) : Slot :=
  ⟨src, tag, size, ∅, List.replicate size 0, t⟩

/-- Modelled from the spec (§4.6): single-datagram reassembly.  The
first arriving fragment creates the slot (its header declares tag and
total size); every arriving fragment — in any order, duplicates
included — is then applied; the buffer is delivered exactly when every
byte in `[0, size)` has been received. -/
def reassemble (arrivals : List Frag) : Option (List ℕ) :=
  match arrivals with
  | [] => none
  | f :: _ =>
      match arrivals.foldl (fun os g => os.bind fun s => applyFrag s g 0)
          (some (freshSlot 0 f.tag f.size 0)) with
      | none => none
      | some s => if slotComplete s then some s.buf else none

/-- A fragment is a faithful piece of payload `P` under tag `g`: right
tag, declared size `|P|`, in-bounds range, and a chunk that is exactly
the slice of `P` at its offset. -/
def FragOf (P : List ℕ) (g : ℕ) (f : Frag) : Prop :=
  f.tag = g ∧ f.size = P.length ∧ f.offset + f.chunk.length ≤ P.length ∧
    f.chunk = (P.drop f.offset).take f.chunk.length

/-- A fragment list covers every byte offset of the payload. -/
def Covers (P : List ℕ) (frags : List Frag) : Prop :=
  ∀ i < P.length, ∃ f ∈ frags, f.offset ≤ i ∧ i < f.offset + f.chunk.length

/-- The reassembly invariant tying a slot to the payload it is
rebuilding: right tag, declared size `|P|`, full-length storage, and
every received offset already holds the payload's byte. -/
def SlotInv (P : List ℕ) (g : ℕ) (s : Slot) : Prop :=
  s.tag = g ∧ s.size = P.length ∧ s.buf.length = P.length ∧
    ∀ i ∈ s.received, i < P.length ∧ s.buf[i]? = P[i]?

/-! ## Receiver registry (C6) -/

/-- The POSIX out-of-memory error number returned by
`sixlowpan_lowpan_register` when the registry is full. -/
def ENOMEM : ℕ := 12

/-- Modelled from the spec (§3, §4.7): the fixed-capacity set of
registered consumer handles. -/
structure Registry where
  cap : ℕ
  pids : List ℤ
deriving DecidableEq

/-- The registry invariant (spec §3): no duplicate handle and at most
the configured maximum number of entries. -/
def Registry.Wf (r : Registry) : Prop := r.pids.Nodup ∧ r.pids.length ≤ r.cap

/-- Modelled from the spec (§4.7, §6, §9): `sixlowpan_lowpan_register`.
A fresh handle is inserted and `1` returned while a free entry exists;
at capacity the call fails explicitly with `ENOMEM`; re-registering an
already-present handle is rejected (spec §9 resolves the upstream
ambiguity as reject-duplicate), leaving the registry unchanged. -/
def sixlowpan_lowpan_register (r : Registry) (pid : ℤ) : ℕ × Registry :=
  if pid ∈ r.pids then (ENOMEM, r)
  else if r.pids.length < r.cap then (1, ⟨r.cap, pid :: r.pids⟩)
  else (ENOMEM, r)

/-! ## Reassembly slot pool (C9) -/

/-- A first-fragment arrival that starts a new reassembly: source
address, datagram tag, declared total size, the first fragment's payload
and the arrival time. -/
structure StartReq where
  src : ℕ
  tag : ℕ
  size : ℕ
  chunk : List ℕ
  time : ℕ
deriving DecidableEq

/-- The `filling` slot created for a first fragment (spec §4.6): size
and tag recorded, payload copied at offset 0, bytes `[0, len)` marked
received, last-update time set to the arrival time. -/
def mkSlotOf (r : StartReq) : Slot :=
  ⟨r.src, r.tag, r.size, Finset.range r.chunk.length,
    writeChunk (List.replicate r.size 0) 0 r.chunk, r.time⟩

/-- Index of the first free (empty) slot of the pool, if any. -/
def firstFree : List (Option Slot) → Option ℕ
  | [] => none
  | none :: _ => some 0
  | some _ :: pool => (firstFree pool).map (· + 1)

/-- Last-update time of a pool entry (free entries never win the
eviction scan, which only runs on a full pool). -/
def slotTime : Option Slot → ℕ
  | none => 0
  | some s => s.lastUpdated

/-- Index of the least-recently-updated slot: a linear scan keeping the
earlier index on ties. -/
def oldestIdx (pool : List (Option Slot)) : ℕ :=
  (List.range pool.length).foldl
    (fun best i =>
      if slotTime (pool.getD i none) < slotTime (pool.getD best none) then i else best) 0

/-- Modelled from the spec (§4.6): arrival of a first fragment whose
(source, tag) is unseen.  A free slot is used if one exists; otherwise
the least-recently-updated `filling` slot is evicted to make room. -/
def onFirstFragment (pool : List (Option Slot)) (r : StartReq) : List (Option Slot) :=
  match firstFree pool with
  | some i => pool.set i (some (mkSlotOf r))
  | none => pool.set (oldestIdx pool) (some (mkSlotOf r))

/-- Run a sequence of first-fragment arrivals against an initially empty
pool of `N` slots. -/
def poolRun (N : ℕ) (reqs : List StartReq) : List (Option Slot) :=
  reqs.foldl onFirstFragment (List.replicate N none)

/-! ## LOWPAN_IPHC header compression (spec §4.3, §4.4) -/

/-- The first LOWPAN_IPHC byte: the `0x60` dispatch bits with the
Flow-Label-elided, Traffic-Class-elided and Next-Header-compressed
flags of `lowpan.h`. -/
def packB1 (flC tcC nhC : Bool) : ℕ :=
  SIXLOWPAN_IPHC1_DISPATCH + (cond flC SIXLOWPAN_IPHC1_FL_C 0) +
    (cond tcC SIXLOWPAN_IPHC1_TC_C 0) + (cond nhC SIXLOWPAN_IPHC1_NH 0)

/-- The second LOWPAN_IPHC byte: Context-Identifier-Extension flag,
Source-Address-Compression flag, 2-bit source address mode (at the
`0x30` bits), Multicast flag, Destination-Address-Compression flag and
2-bit destination address mode (at the `0x03` bits). -/
def packB2 (cidF sac : Bool) (sam : ℕ) (m dac : Bool) (dam : ℕ) : ℕ :=
  (cond cidF SIXLOWPAN_IPHC2_CID 0) + (cond sac SIXLOWPAN_IPHC2_SAC 0) +
    sam * 16 + (cond m SIXLOWPAN_IPHC2_M 0) + (cond dac SIXLOWPAN_IPHC2_DAC 0) + dam

/-- Modelled from the spec (§4.3): next-header compression against the
whitelist of well-known values (UDP = 17, ICMPv6 = 58).  Returns the NH
flag and the byte appended after the fixed header: the whitelist index
when compressed, the full 8-bit value otherwise. -/
def encNh (nh : ℕ) : Bool × ℕ :=
  if nh = 17 then (true, 0) else if nh = 58 then (true, 1) else (false, nh)

/-- Modelled from the spec (§4.4): inverse of `encNh`; an index outside
the whitelist is a decode error. -/
def decNh (c : Bool) (b : ℕ) : Option ℕ :=
  if c then (if b = 0 then some 17 else if b = 1 then some 58 else none)
  else some b

/-- Consume the next-header byte off the stream. -/
def decNhStream (c : Bool) (l : List ℕ) : Option (ℕ × List ℕ) :=
  match l with
  | b :: l' => (decNh c b).map fun nh => (nh, l')
  | [] => none

/-- Modelled from the spec (§4.3): the four traffic-class/flow-label
elision sub-cases.  A zero field is elided (its flag is set); a non-zero
traffic class is carried in one byte, a non-zero flow label in three. -/
def encTcFl (tc fl : ℕ) : List ℕ :=
  if fl = 0 then (if tc = 0 then [] else [tc])
  else (if tc = 0 then natBytes 3 fl else tc :: natBytes 3 fl)

/-- Modelled from the spec (§4.4): inverse of `encTcFl`, driven by the
two elision flags. -/
def decTcFl (flC tcC : Bool) (l : List ℕ) : Option ((ℕ × ℕ) × List ℕ) :=
  match flC, tcC with
  | true, true => some ((0, 0), l)
  | true, false =>
      match l with
      | t :: l' => some ((t, 0), l')
      | [] => none
  | false, true => (readBytes 3 l).map fun p => ((0, p.1), p.2)
  | false, false =>
      match l with
      | t :: l' => (readBytes 3 l').map fun p => ((t, p.1), p.2)
      | [] => none

/-- Consume the optional context-identifier-extension byte: source
context id in the high nibble, destination context id in the low one;
without the CID flag both ids default to 0. -/
def decCid (f : Bool) (l : List ℕ) : Option ((ℕ × ℕ) × List ℕ) :=
  if f then
    match l with
    | c :: l' => some ((c / 16, c % 16), l')
    | [] => none
  else some ((0, 0), l)

/-- The compression decision for one unicast address: the 2-bit address
mode, the context id used, and the inline bytes carried. -/
structure AddrComp where
  mode : ℕ
  cid : ℕ
  bytes : List ℕ
deriving DecidableEq

/-- The compression decision for the destination address: as `AddrComp`
plus the multicast flag. -/
structure DstComp where
  m : Bool
  mode : ℕ
  cid : ℕ
  bytes : List ℕ
deriving DecidableEq

/-- The smallest context identifier whose routing portion equals `p`,
searching the sixteen identifiers (id 0 included, via its implicit
link-local fallback). -/
def findContext (C : ContextTable) (p : ℕ) : Option ℕ :=
  (List.range 16).find? fun cid => ctxLookup C cid == some p

/-- Modelled from the spec (§4.3): per-address compression.  An address
whose routing portion matches a context and whose interface identifier
is derivable from the link-layer address is fully elided (mode 3); with
a context match only, the 16-bit or 64-bit interface identifier is
carried (modes 2/1); otherwise the address is carried in full
(mode 0). -/
def compressAddr (C : ContextTable) (ll : ℕ) (a : Ipv6Addr) : AddrComp :=
  match findContext C a.pre with
  | some cid =>
      if a.iid = ll then ⟨3, cid, []⟩
      else if a.iid < 2 ^ 16 then ⟨2, cid, natBytes 2 a.iid⟩
      else ⟨1, cid, natBytes 8 a.iid⟩
  | none => ⟨0, 0, natBytes 8 a.pre ++ natBytes 8 a.iid⟩

/-- Modelled from the spec (§4.4): per-address decompression.  Modes
referring to a context that does not resolve are decode errors; mode 3
reconstructs the interface identifier from the link-layer address. -/
def decompressAddr (C : ContextTable) (ll : ℕ) (mode cid : ℕ) (l : List ℕ) :
    Option (Ipv6Addr × List ℕ) :=
  match mode with
  | 0 => (readBytes 8 l).bind fun p =>
      (readBytes 8 p.2).map fun q => (⟨p.1, q.1⟩, q.2)
  | 1 => (ctxLookup C cid).bind fun pre =>
      (readBytes 8 l).map fun q => (⟨pre, q.1⟩, q.2)
  | 2 => (ctxLookup C cid).bind fun pre =>
      (readBytes 2 l).map fun q => (⟨pre, q.1⟩, q.2)
  | 3 => (ctxLookup C cid).map fun pre => (⟨pre, ll⟩, l)
  | _ => none

/-- A multicast address: the leading byte of the routing portion is
`0xff`. -/
def isMulticastAddr (a : Ipv6Addr) : Bool := a.pre / 2 ^ 56 == 0xff

/-- Modelled from the spec (§4.3): destination compression.  Multicast
destinations use the separate multicast table, here its full inline
form; unicast destinations compress like the source. -/
def compressDst (C : ContextTable) (ll : ℕ) (a : Ipv6Addr) : DstComp :=
  if isMulticastAddr a then ⟨true, 0, 0, natBytes 8 a.pre ++ natBytes 8 a.iid⟩
  else
    let u := compressAddr C ll a
    ⟨false, u.mode, u.cid, u.bytes⟩

/-- Modelled from the spec (§4.4): destination decompression, driven by
the multicast flag. -/
def decDst (C : ContextTable) (ll : ℕ) (m : Bool) (dam dcid : ℕ) (l : List ℕ) :
    Option (Ipv6Addr × List ℕ) :=
  if m then decompressAddr C ll 0 dcid l
  else decompressAddr C ll dam dcid l

/-- Modelled from the spec (§4.3): the LOWPAN_IPHC compressor.  Output:
the two IPHC bytes, the context-identifier-extension byte exactly when a
non-zero context id is used, the traffic-class/flow-label residue, the
next-header byte, the hop limit, the compressed source and destination
address fields, and the untouched payload.  The payload length field is
elided: the decompressor recovers it from the residual payload. -/
def iphc_compress (C : ContextTable) (llsrc lldst : ℕ) (H : Ipv6Header)
    (payload : List ℕ) : List ℕ :=
  packB1 (H.flowLabel == 0) (H.trafficClass == 0) (encNh H.nextHeader).1 ::
    packB2
      (((compressAddr C llsrc H.src).cid != 0) || ((compressDst C lldst H.dst).cid != 0))
      ((compressAddr C llsrc H.src).mode != 0) (compressAddr C llsrc H.src).mode
      (compressDst C lldst H.dst).m ((compressDst C lldst H.dst).mode != 0)
      (compressDst C lldst H.dst).mode ::
    ((if ((compressAddr C llsrc H.src).cid != 0) || ((compressDst C lldst H.dst).cid != 0)
        then [(compressAddr C llsrc H.src).cid * 16 + (compressDst C lldst H.dst).cid]
        else []) ++
      (encTcFl H.trafficClass H.flowLabel ++
        ((encNh H.nextHeader).2 :: H.hopLimit ::
          ((compressAddr C llsrc H.src).bytes ++
            ((compressDst C lldst H.dst).bytes ++ payload)))))

/-- Modelled from the spec (§4.4): the LOWPAN_IPHC decompressor, the
inverse of `iphc_compress` given the frame's link-layer addresses and
the context table.  Any structural inconsistency (bad dispatch,
truncated input, reference to an absent context, reserved next-header
index) yields `none`. -/
def iphc_decompress (C : ContextTable) (llsrc lldst : ℕ) (l : List ℕ) :
    Option (Ipv6Header × List ℕ) :=
  match l with
  | b1 :: b2 :: l0 =>
      if b1 / 32 = 3 then
        (decCid (b2 / 128 % 2 == 1) l0).bind fun pc =>
          (decTcFl (b1 / 16 % 2 == 1) (b1 / 8 % 2 == 1) pc.2).bind fun pt =>
            (decNhStream (b1 / 4 % 2 == 1) pt.2).bind fun pn =>
              (readBytes 1 pn.2).bind fun ph =>
                (decompressAddr C llsrc (b2 / 16 % 4) pc.1.1 ph.2).bind fun ps =>
                  (decDst C lldst (b2 / 8 % 2 == 1) (b2 % 4) pc.1.2 ps.2).bind fun pd =>
                    some (⟨6, pt.1.1, pt.1.2, pd.2.length, pn.1, ph.1, ps.1, pd.1⟩, pd.2)
      else none
  | _ => none

/-! ## Theorems -/

theorem readBytes_natBytes (k n : ℕ) (rest : List ℕ) (hn : n < 256 ^ k) :
    readBytes k (natBytes k n ++ rest) = some (n, rest) := by
  induction k generalizing n with
  | zero =>
      interval_cases n
      simp [natBytes, readBytes]
  | succ k ih =>
      have hpos : 0 < 256 ^ k := Nat.pos_pow_of_pos k (by omega)
      have ihh := ih (n % 256 ^ k) (Nat.mod_lt n hpos)
      simp only [natBytes, List.cons_append, readBytes]
      simp only [List.append_eq]
      rw [ihh, Option.map_some']
      rw [Nat.div_add_mod']

theorem frag1Header_head (size tag : ℕ) (h : size ≤ MAX_FRAG_DATAGRAM_SIZE) :
    (frag1Header size tag).headD 0 = SIXLOWPAN_FRAG1_DISPATCH + size / 256 ∧
      size / 256 < 8 := by
  have h8 : size / 256 < 8 := by
    unfold MAX_FRAG_DATAGRAM_SIZE at h; omega
  refine ⟨?_, h8⟩
  simp only [frag1Header, List.headD_cons]
  interval_cases hd : (size / 256) <;> decide

theorem fragNHeader_head (size tag off : ℕ) (h : size ≤ MAX_FRAG_DATAGRAM_SIZE) :
    (fragNHeader size tag off).headD 0 = SIXLOWPAN_FRAGN_DISPATCH + size / 256 ∧
      size / 256 < 8 := by
  have h8 : size / 256 < 8 := by
    unfold MAX_FRAG_DATAGRAM_SIZE at h; omega
  refine ⟨?_, h8⟩
  simp only [fragNHeader, List.headD_cons]
  interval_cases hd : (size / 256) <;> decide

theorem packB1_range (a b c : Bool) : 0x60 ≤ packB1 a b c ∧ packB1 a b c ≤ 0x7f := by
  cases a <;> cases b <;> cases c <;> decide

/-- C10: the local PHY-layer address accepted by `sixlowpan_lowpan_init`
and `sixlowpan_lowpan_adhoc_init` is a `uint8_t`: the engine sees the
caller's argument reduced mod 2^8, hence always a value in 0–255. -/
theorem C10_r_addr_uint8 (trans n : ℕ) (b : ℤ) (p : Ipv6Addr) :
    (sixlowpan_lowpan_init trans n b).r_addr = n % 2 ^ 8 ∧
      (sixlowpan_lowpan_init trans n b).r_addr < 2 ^ 8 ∧
      (sixlowpan_lowpan_adhoc_init trans p n).r_addr = n % 2 ^ 8 ∧
      (sixlowpan_lowpan_adhoc_init trans p n).r_addr < 2 ^ 8 :=
  ⟨rfl, Nat.mod_lt _ (by decide), rfl, Nat.mod_lt _ (by decide)⟩

/-- C4 counterexample: `sixlowpan_lowpan_sendto` is declared `void`, so
its return value on an empty datagram and on a hopelessly oversized
datagram is one and the same — the caller cannot read off success versus
a specific send failure, refuting the claim that every invocation
reports which occurred. -/
theorem C4_sendto_counterexample :
    sixlowpan_lowpan_sendto 0 [] 0 =
      sixlowpan_lowpan_sendto 0 (List.replicate 2048 0) 2048 := rfl

/-- C4 (amended): `sixlowpan_lowpan_sendto` is declared to return
`void`; every invocation returns the same unit result, so no success or
send-failure indication reaches the caller through the return value. -/
theorem C4_sendto_returns_void (d1 d2 : ℕ) (l1 l2 : List ℕ) (n1 n2 : ℕ) :
    sixlowpan_lowpan_sendto d1 l1 n1 = sixlowpan_lowpan_sendto d2 l2 n2 := rfl

set_option maxRecDepth 10000 in
/-- C5 (code bug): the delivered `sixlowpan_lowpan_frame_t` length field
is a `uint8_t`, so a reassembled 300-byte datagram — well inside the
2047-byte maximum the 11-bit fragmentation size field supports — is
delivered with length field 300 mod 256 = 44, not its actual byte
length. -/
theorem C5_length_field_truncates :
    (mkLowpanFrame (List.replicate 300 0)).length = 44 ∧
      (List.replicate 300 (0 : ℕ)).length = 300 ∧
      300 ≤ MAX_FRAG_DATAGRAM_SIZE ∧ (mkLowpanFrame (List.replicate 300 0)).length ≠ 300 := by
  decide

/-- C7: a datagram longer than the 2047 bytes representable by the
11-bit datagram-size field is rejected as oversized before any fragment
is emitted. -/
theorem C7_oversized_rejected (P : List ℕ) (mtu tag : ℕ)
    (h : MAX_FRAG_DATAGRAM_SIZE < P.length) :
    fragment P mtu tag = Except.error SendError.oversized := by
  simp [fragment, h]

set_option maxRecDepth 10000 in
/-- Witness for C7 at a concrete 2048-byte datagram. -/
theorem C7_oversized_rejected_witness :
    fragment (List.replicate 2048 0) 100 0 = Except.error SendError.oversized :=
  C7_oversized_rejected (List.replicate 2048 0) 100 0 (by simp [MAX_FRAG_DATAGRAM_SIZE])

/-- C6: `sixlowpan_lowpan_register` on a well-formed registry returns 1
after inserting a fresh handle while a free entry exists, returns ENOMEM
with the registry unchanged once the configured maximum is reached, and
always preserves the invariant: no duplicate handle, size bounded by the
configured capacity. -/
theorem C6_register (r : Registry) (pid : ℤ) (hwf : r.Wf) :
    ((sixlowpan_lowpan_register r pid).1 = 1 ∨
        (sixlowpan_lowpan_register r pid).1 = ENOMEM) ∧
      (pid ∉ r.pids → r.pids.length < r.cap →
        (sixlowpan_lowpan_register r pid).1 = 1 ∧
          (sixlowpan_lowpan_register r pid).2.pids = pid :: r.pids) ∧
      (r.pids.length = r.cap →
        (sixlowpan_lowpan_register r pid).1 = ENOMEM ∧
          (sixlowpan_lowpan_register r pid).2 = r) ∧
      (pid ∈ r.pids → (sixlowpan_lowpan_register r pid).2 = r) ∧
      (sixlowpan_lowpan_register r pid).2.Wf ∧
      (sixlowpan_lowpan_register r pid).2.cap = r.cap := by
  obtain ⟨hnd, hle⟩ := hwf
  by_cases hmem : pid ∈ r.pids
  · have hreg : sixlowpan_lowpan_register r pid = (ENOMEM, r) := by
      simp [sixlowpan_lowpan_register, hmem]
    rw [hreg]
    exact ⟨Or.inr rfl, fun hc => absurd hmem hc, fun _ => ⟨rfl, rfl⟩, fun _ => rfl,
      ⟨hnd, hle⟩, rfl⟩
  · by_cases hlt : r.pids.length < r.cap
    · have hreg : sixlowpan_lowpan_register r pid = (1, ⟨r.cap, pid :: r.pids⟩) := by
        simp [sixlowpan_lowpan_register, hmem, hlt]
      rw [hreg]
      refine ⟨Or.inl rfl, fun _ _ => ⟨rfl, rfl⟩, fun hc => absurd hc (by omega),
        fun hc => absurd hc hmem, ⟨?_, ?_⟩, rfl⟩
      · exact List.nodup_cons.mpr ⟨hmem, hnd⟩
      · simpa using hlt
    · have hreg : sixlowpan_lowpan_register r pid = (ENOMEM, r) := by
        simp [sixlowpan_lowpan_register, hmem, hlt]
      rw [hreg]
      exact ⟨Or.inr rfl, fun _ hc => absurd hc hlt, fun _ => ⟨rfl, rfl⟩,
        fun hc => absurd hc hmem, ⟨hnd, hle⟩, rfl⟩

/-- Witness for C6 on a concrete registry of capacity 2 holding one
handle. -/
theorem C6_register_witness :
    ((sixlowpan_lowpan_register ⟨2, [5]⟩ 7).1 = 1 ∨
        (sixlowpan_lowpan_register ⟨2, [5]⟩ 7).1 = ENOMEM) ∧
      ((7 : ℤ) ∉ [(5 : ℤ)] → [(5 : ℤ)].length < 2 →
        (sixlowpan_lowpan_register ⟨2, [5]⟩ 7).1 = 1 ∧
          (sixlowpan_lowpan_register ⟨2, [5]⟩ 7).2.pids = 7 :: [5]) ∧
      ([(5 : ℤ)].length = 2 →
        (sixlowpan_lowpan_register ⟨2, [5]⟩ 7).1 = ENOMEM ∧
          (sixlowpan_lowpan_register ⟨2, [5]⟩ 7).2 = ⟨2, [5]⟩) ∧
      ((7 : ℤ) ∈ [(5 : ℤ)] → (sixlowpan_lowpan_register ⟨2, [5]⟩ 7).2 = ⟨2, [5]⟩) ∧
      (sixlowpan_lowpan_register ⟨2, [5]⟩ 7).2.Wf ∧
      (sixlowpan_lowpan_register ⟨2, [5]⟩ 7).2.cap = 2 :=
  C6_register ⟨2, [5]⟩ 7 (by constructor <;> decide)

theorem iphc_compress_head (C : ContextTable) (ls ld : ℕ) (H : Ipv6Header) (pay : List ℕ) :
    (iphc_compress C ls ld H pay).headD 0 =
      packB1 (H.flowLabel == 0) (H.trafficClass == 0) (encNh H.nextHeader).1 := rfl

/-- C3: the wire format uses exactly the normative dispatch encodings:
`0x41` for uncompressed IPv6; IPHC first bytes always in `0x60`–`0x7f`
and its flag constants at the normative bit positions (byte 1:
Flow-Label-elided `0x10`, Traffic-Class-elided `0x08`,
Next-Header-compressed `0x04`; byte 2: Context-Identifier-Extension
`0x80`, Source-Address-Compressed `0x40`, source address mode `0x30`,
Multicast `0x08`, Destination-Address-Compressed `0x04`, destination
address mode `0x03`); a first fragment with a 4-byte header whose
dispatch byte lies in `0xc0`–`0xdf`; and a subsequent fragment with a
5-byte header whose dispatch byte lies in `0xe0`–`0xff` and whose offset
byte counts units of 8 bytes. -/
theorem C3_wire_format (size tag off : ℕ) (hsize : size ≤ MAX_FRAG_DATAGRAM_SIZE)
    (C : ContextTable) (ls ld : ℕ) (H : Ipv6Header) (pay : List ℕ) :
    SIXLOWPAN_IPV6_DISPATCH = 0x41 ∧
      SIXLOWPAN_IPHC1_DISPATCH = 0x60 ∧ SIXLOWPAN_IPHC1_FL_C = 0x10 ∧
      SIXLOWPAN_IPHC1_TC_C = 0x08 ∧ SIXLOWPAN_IPHC1_NH = 0x04 ∧
      SIXLOWPAN_IPHC2_CID = 0x80 ∧ SIXLOWPAN_IPHC2_SAC = 0x40 ∧
      SIXLOWPAN_IPHC2_SAM = 0x30 ∧ SIXLOWPAN_IPHC2_M = 0x08 ∧
      SIXLOWPAN_IPHC2_DAC = 0x04 ∧ SIXLOWPAN_IPHC2_DAM = 0x03 ∧
      SIXLOWPAN_FRAG1_DISPATCH = 0xc0 ∧ SIXLOWPAN_FRAGN_DISPATCH = 0xe0 ∧
      (0x60 ≤ (iphc_compress C ls ld H pay).headD 0 ∧
        (iphc_compress C ls ld H pay).headD 0 ≤ 0x7f) ∧
      ((frag1Header size tag).length = SIXLOWPAN_FRAG1_HDR_LEN ∧
        0xc0 ≤ (frag1Header size tag).headD 0 ∧ (frag1Header size tag).headD 0 ≤ 0xdf) ∧
      ((fragNHeader size tag off).length = SIXLOWPAN_FRAGN_HDR_LEN ∧
        0xe0 ≤ (fragNHeader size tag off).headD 0 ∧
        (fragNHeader size tag off).headD 0 ≤ 0xff ∧
        (fragNHeader size tag off).getD 4 0 = off / 8) := by
  obtain ⟨h1a, h1b⟩ := frag1Header_head size tag hsize
  obtain ⟨hna, hnb⟩ := fragNHeader_head size tag off hsize
  refine ⟨rfl, rfl, rfl, rfl, rfl, rfl, rfl, rfl, rfl, rfl, rfl, rfl, rfl, ?_, ⟨rfl, ?_, ?_⟩,
    ⟨rfl, ?_, ?_, rfl⟩⟩
  · rw [iphc_compress_head]
    exact packB1_range (H.flowLabel == 0) (H.trafficClass == 0) (encNh H.nextHeader).1
  · rw [h1a]; unfold SIXLOWPAN_FRAG1_DISPATCH; omega
  · rw [h1a]; unfold SIXLOWPAN_FRAG1_DISPATCH; omega
  · rw [hna]; unfold SIXLOWPAN_FRAGN_DISPATCH; omega
  · rw [hna]; unfold SIXLOWPAN_FRAGN_DISPATCH; omega

/-- Witness for C3 at a concrete size, tag, offset, context table and
header. -/
theorem C3_wire_format_witness :
    SIXLOWPAN_IPV6_DISPATCH = 0x41 ∧
      SIXLOWPAN_IPHC1_DISPATCH = 0x60 ∧ SIXLOWPAN_IPHC1_FL_C = 0x10 ∧
      SIXLOWPAN_IPHC1_TC_C = 0x08 ∧ SIXLOWPAN_IPHC1_NH = 0x04 ∧
      SIXLOWPAN_IPHC2_CID = 0x80 ∧ SIXLOWPAN_IPHC2_SAC = 0x40 ∧
      SIXLOWPAN_IPHC2_SAM = 0x30 ∧ SIXLOWPAN_IPHC2_M = 0x08 ∧
      SIXLOWPAN_IPHC2_DAC = 0x04 ∧ SIXLOWPAN_IPHC2_DAM = 0x03 ∧
      SIXLOWPAN_FRAG1_DISPATCH = 0xc0 ∧ SIXLOWPAN_FRAGN_DISPATCH = 0xe0 ∧
      (0x60 ≤ (iphc_compress [] 1 2 ⟨6, 0, 0, 0, 59, 64, ⟨0, 1⟩, ⟨0, 2⟩⟩ []).headD 0 ∧
        (iphc_compress [] 1 2 ⟨6, 0, 0, 0, 59, 64, ⟨0, 1⟩, ⟨0, 2⟩⟩ []).headD 0 ≤ 0x7f) ∧
      ((frag1Header 300 9 ).length = SIXLOWPAN_FRAG1_HDR_LEN ∧
        0xc0 ≤ (frag1Header 300 9 ).headD 0 ∧ (frag1Header 300 9 ).headD 0 ≤ 0xdf) ∧
      ((fragNHeader 300 9 96).length = SIXLOWPAN_FRAGN_HDR_LEN ∧
        0xe0 ≤ (fragNHeader 300 9 96).headD 0 ∧
        (fragNHeader 300 9 96).headD 0 ≤ 0xff ∧
        (fragNHeader 300 9 96).getD 4 0 = 96 / 8) :=
  C3_wire_format 300 9 96 (by decide) [] 1 2 ⟨6, 0, 0, 0, 59, 64, ⟨0, 1⟩, ⟨0, 2⟩⟩ []

theorem writeChunk_length (buf : List ℕ) (off : ℕ) (c : List ℕ) :
    (writeChunk buf off c).length = buf.length := by
  induction buf generalizing off c with
  | nil => cases c <;> rfl
  | cons b buf ih =>
      cases c with
      | nil => simp [writeChunk]
      | cons x cs =>
          cases off with
          | zero => simp [writeChunk, ih]
          | succ o => simp [writeChunk, ih]

theorem writeChunk_writeChunk (buf : List ℕ) (off : ℕ) (c : List ℕ) :
    writeChunk (writeChunk buf off c) off c = writeChunk buf off c := by
  induction buf generalizing off c with
  | nil => cases c <;> rfl
  | cons b buf ih =>
      cases c with
      | nil => simp [writeChunk]
      | cons x cs =>
          cases off with
          | zero => simp [writeChunk, ih]
          | succ o => simp [writeChunk, ih]

/-- C8: resubmitting a fragment that a `filling` slot has already
absorbed changes nothing but the slot's last-update time: the
received-set is unchanged (no double counting towards the completion
condition), the duplicate bytes are rewritten idempotently, and the
completion condition's value is unchanged. -/
theorem C8_duplicate_idempotent (s s1 : Slot) (f : Frag) (t t' : ℕ)
    (hmatch : f.tag = s.tag) (h : applyFrag s f t = some s1) :
    applyFrag s1 f t' = some ⟨s1.src, s1.tag, s1.size, s1.received, s1.buf, t'⟩ ∧
      (⟨s1.src, s1.tag, s1.size, s1.received, s1.buf, t'⟩ : Slot).received = s1.received ∧
      slotComplete ⟨s1.src, s1.tag, s1.size, s1.received, s1.buf, t'⟩ = slotComplete s1 := by
  unfold applyFrag at h
  rw [if_pos hmatch] at h
  by_cases hfit : f.offset + f.chunk.length ≤ s.size
  · rw [if_pos hfit] at h
    simp only [Option.some_inj] at h
    subst h
    refine ⟨?_, rfl, rfl⟩
    unfold applyFrag
    rw [if_pos hmatch, if_pos hfit]
    simp only [Option.some_inj]
    congr 1
    · rw [Finset.union_assoc, Finset.union_self]
    · exact writeChunk_writeChunk s.buf f.offset f.chunk
  · rw [if_neg hfit] at h
    exact absurd h (by simp)

/-- Witness for C8: a slot of size 8 that has received bytes `[2, 4)`
absorbs the same fragment a second time without change. -/
theorem C8_duplicate_idempotent_witness :
    applyFrag ⟨0, 5, 8, ∅ ∪ Finset.Ico 2 4, [0, 0, 7, 7, 0, 0, 0, 0], 1⟩ ⟨5, 8, 2, [7, 7]⟩ 2 =
        some ⟨0, 5, 8, ∅ ∪ Finset.Ico 2 4, [0, 0, 7, 7, 0, 0, 0, 0], 2⟩ ∧
      (⟨0, 5, 8, ∅ ∪ Finset.Ico 2 4, [0, 0, 7, 7, 0, 0, 0, 0], 2⟩ : Slot).received =
        (⟨0, 5, 8, ∅ ∪ Finset.Ico 2 4, [0, 0, 7, 7, 0, 0, 0, 0], 1⟩ : Slot).received ∧
      slotComplete ⟨0, 5, 8, ∅ ∪ Finset.Ico 2 4, [0, 0, 7, 7, 0, 0, 0, 0], 2⟩ =
        slotComplete ⟨0, 5, 8, ∅ ∪ Finset.Ico 2 4, [0, 0, 7, 7, 0, 0, 0, 0], 1⟩ :=
  C8_duplicate_idempotent (freshSlot 0 5 8 0)
    ⟨0, 5, 8, ∅ ∪ Finset.Ico 2 4, [0, 0, 7, 7, 0, 0, 0, 0], 1⟩
    ⟨5, 8, 2, [7, 7]⟩ 1 2 (by decide) (by decide)

theorem foldl_min_keep (f : ℕ → ℕ) (l : List ℕ) (b : ℕ)
    (h : ∀ i ∈ l, ¬ f i < f b) :
    l.foldl (fun best i => if f i < f best then i else best) b = b := by
  induction l generalizing b with
  | nil => rfl
  | cons x xs ih =>
      simp only [List.foldl_cons]
      rw [if_neg (h x (by simp))]
      exact ih b fun i hi => h i (by simp [hi])

theorem oldestIdx_zero (pool : List (Option Slot))
    (h : ∀ i ∈ List.range pool.length,
      ¬ slotTime (pool.getD i none) < slotTime (pool.getD 0 none)) :
    oldestIdx pool = 0 :=
  foldl_min_keep (fun i => slotTime (pool.getD i none)) (List.range pool.length) 0 h

theorem firstFree_map_some (ss : List Slot) : firstFree (ss.map some) = none := by
  induction ss with
  | nil => rfl
  | cons s ss ih => simp [firstFree, ih]

theorem firstFree_append_none (ss : List Slot) (k : ℕ) :
    firstFree (ss.map some ++ List.replicate (k + 1) none) = some ss.length := by
  induction ss with
  | nil => simp [List.replicate_succ, firstFree]
  | cons s ss ih => simp [firstFree, ih]

theorem list_set_append (ss rest : List (Option Slot)) (x : Option Slot) :
    (ss ++ rest).set ss.length x = ss ++ rest.set 0 x := by
  induction ss with
  | nil => rfl
  | cons a ss ih => simp [List.set, ih]

theorem poolFill (rs : List StartReq) : ∀ (ss : List Slot) (k : ℕ), rs.length ≤ k →
    rs.foldl onFirstFragment (ss.map some ++ List.replicate k none) =
      (ss ++ rs.map mkSlotOf).map some ++ List.replicate (k - rs.length) none := by
  induction rs with
  | nil => intro ss k _; simp
  | cons r rs ih =>
      intro ss k h
      cases k with
      | zero => simp at h
      | succ k =>
          simp only [List.foldl_cons]
          have hstep : onFirstFragment (ss.map some ++ List.replicate (k + 1) none) r =
              (ss ++ [mkSlotOf r]).map some ++ List.replicate k none := by
            unfold onFirstFragment
            rw [firstFree_append_none]
            dsimp only
            have hl : ss.length = (ss.map some).length := by simp
            rw [hl, list_set_append]
            simp [List.replicate_succ]
          rw [hstep]
          have hrec := ih (ss ++ [mkSlotOf r]) k (by simpa using h)
          rw [hrec]
          simp only [List.length_cons, List.append_assoc, List.map_append, List.map_cons,
            List.map_nil]
          rw [Nat.succ_sub_succ]
          simp

theorem onFirstFragment_full (slots : List Slot) (r : StartReq)
    (h : ∀ i ∈ List.range slots.length,
      ¬ slotTime ((slots.map some).getD i none) < slotTime ((slots.map some).getD 0 none)) :
    onFirstFragment (slots.map some) r = (slots.map some).set 0 (some (mkSlotOf r)) := by
  unfold onFirstFragment
  rw [firstFree_map_some, oldestIdx_zero]
  intro i hi
  rw [List.length_map] at hi
  exact h i hi

/-- C9: with a pool of `N` slots, starting `N + 1` reassemblies with
pairwise-distinct (source, tag) keys at strictly increasing times first
fills all `N` slots in order, and the `(N+1)`-th start evicts exactly
one slot — the least-recently-updated one, at index 0 — while every
other in-progress reassembly's slot state is left bit-identical. -/
theorem C9_pool_eviction (N : ℕ) (hN : 0 < N) (rs : List StartReq) (rl : StartReq)
    (hlen : rs.length = N)
    (htime : (rs ++ [rl]).Pairwise fun a b => a.time < b.time)
    (hkeys : (rs ++ [rl]).Pairwise fun a b => (a.src, a.tag) ≠ (b.src, b.tag)) :
    poolRun N rs = (rs.map mkSlotOf).map some ∧
      poolRun N (rs ++ [rl]) =
        ((rs.map mkSlotOf).map some).set 0 (some (mkSlotOf rl)) := by
  have hfill : poolRun N rs = (rs.map mkSlotOf).map some := by
    have hf := poolFill rs [] N (le_of_eq hlen)
    unfold poolRun
    simpa [hlen] using hf
  refine ⟨hfill, ?_⟩
  unfold poolRun
  rw [List.foldl_append]
  unfold poolRun at hfill
  rw [hfill]
  simp only [List.foldl_cons, List.foldl_nil]
  apply onFirstFragment_full
  intro i hi
  rw [List.mem_range, List.length_map] at hi
  have hpw : rs.Pairwise fun a b => a.time < b.time := (List.pairwise_append.mp htime).1
  have hgd : ∀ (j : ℕ) (hj : j < rs.length),
      ((rs.map mkSlotOf).map some).getD j none = some (mkSlotOf (rs.get ⟨j, hj⟩)) := by
    intro j hj
    have hj2 : j < ((rs.map mkSlotOf).map some).length := by simpa using hj
    rw [List.getD_eq_getElem _ _ hj2]
    simp
  rw [hgd i hi, hgd 0 (by omega)]
  simp only [slotTime, mkSlotOf]
  rcases Nat.eq_zero_or_pos i with h0 | h0
  · subst h0; omega
  · have hlt := List.pairwise_iff_get.mp hpw ⟨0, by omega⟩ ⟨i, hi⟩ h0
    omega

/-- Witness for C9: a 2-slot pool, three distinct reassemblies at times
10, 20, 30. -/
theorem C9_pool_eviction_witness :
    poolRun 2 [⟨1, 1, 16, [9], 10⟩, ⟨2, 2, 16, [8], 20⟩] =
        ([⟨1, 1, 16, [9], 10⟩, ⟨2, 2, 16, [8], 20⟩].map mkSlotOf).map some ∧
      poolRun 2 ([⟨1, 1, 16, [9], 10⟩, ⟨2, 2, 16, [8], 20⟩] ++ [⟨3, 3, 16, [7], 30⟩]) =
        (([⟨1, 1, 16, [9], 10⟩, ⟨2, 2, 16, [8], 20⟩].map mkSlotOf).map some).set 0
          (some (mkSlotOf ⟨3, 3, 16, [7], 30⟩)) :=
  C9_pool_eviction 2 (by decide) [⟨1, 1, 16, [9], 10⟩, ⟨2, 2, 16, [8], 20⟩]
    ⟨3, 3, 16, [7], 30⟩ (by decide) (by decide) (by decide)

theorem take_min (l : List ℕ) (n : ℕ) : l.take (min n l.length) = l.take n := by
  rcases Nat.le_total n l.length with h | h
  · rw [Nat.min_eq_left h]
  · rw [Nat.min_eq_right h, List.take_length, List.take_of_length_le h]

theorem getElem?_writeChunk (buf : List ℕ) (off : ℕ) (ch : List ℕ) (i : ℕ)
    (hfit : off + ch.length ≤ buf.length) :
    (writeChunk buf off ch)[i]? =
      if off ≤ i ∧ i < off + ch.length then ch[i - off]? else buf[i]? := by
  induction buf generalizing off ch i with
  | nil =>
      cases ch with
      | nil => simp [writeChunk]
      | cons x cs => simp at hfit
  | cons b buf ih =>
      cases ch with
      | nil =>
          simp only [writeChunk, List.length_nil]
          rw [if_neg (by omega)]
      | cons x cs =>
          cases off with
          | zero =>
              cases i with
              | zero => simp [writeChunk]
              | succ j =>
                  have hfit2 : 0 + cs.length ≤ buf.length := by
                    simp only [List.length_cons] at hfit; omega
                  simp only [writeChunk, List.getElem?_cons_succ]
                  rw [ih 0 cs j hfit2]
                  simp only [Nat.sub_zero, List.length_cons, List.getElem?_cons_succ]
                  exact if_congr (by omega) rfl rfl
          | succ o =>
              cases i with
              | zero =>
                  simp only [writeChunk, List.getElem?_cons_zero]
                  rw [if_neg (by omega)]
              | succ j =>
                  have hfit2 : o + (x :: cs).length ≤ buf.length := by
                    simp only [List.length_cons] at hfit ⊢; omega
                  simp only [writeChunk, List.getElem?_cons_succ]
                  rw [ih o (x :: cs) j hfit2]
                  simp only [Nat.succ_sub_succ, List.length_cons, List.getElem?_cons_succ]
                  exact if_congr (by omega) rfl rfl

theorem applyFrag_slotInv (P : List ℕ) (g : ℕ) (s : Slot) (f : Frag) (t : ℕ)
    (hs : SlotInv P g s) (hf : FragOf P g f) :
    applyFrag s f t = some
        { s with received := s.received ∪ fragRange f,
                 buf := writeChunk s.buf f.offset f.chunk, lastUpdated := t } ∧
      SlotInv P g
        { s with received := s.received ∪ fragRange f,
                 buf := writeChunk s.buf f.offset f.chunk, lastUpdated := t } := by
  obtain ⟨hst, hss, hsb, hsr⟩ := hs
  obtain ⟨hft, hfs, hfit, hfc⟩ := hf
  have hfit2 : f.offset + f.chunk.length ≤ s.buf.length := by rw [hsb]; exact hfit
  constructor
  · unfold applyFrag
    rw [if_pos (by rw [hft, hst]), if_pos (by rw [hss]; exact hfit)]
  · refine ⟨hst, hss, by rw [writeChunk_length]; exact hsb, ?_⟩
    intro i hi
    rw [getElem?_writeChunk s.buf f.offset f.chunk i hfit2]
    by_cases hrange : f.offset ≤ i ∧ i < f.offset + f.chunk.length
    · refine ⟨by omega, ?_⟩
      rw [if_pos hrange, hfc]
      have hlt : i - f.offset < f.chunk.length := by omega
      rw [List.getElem?_take_of_lt hlt, List.getElem?_drop]
      congr 1
      omega
    · rw [if_neg hrange]
      have hmem : i ∈ s.received := by
        rcases Finset.mem_union.mp hi with h | h
        · exact h
        · exact absurd (Finset.mem_Ico.mp h) hrange
      exact hsr i hmem

theorem foldl_applyFrag (P : List ℕ) (g : ℕ) (fs : List Frag)
    (hfs : ∀ f ∈ fs, FragOf P g f) (s : Slot) (hs : SlotInv P g s) :
    ∃ s1, fs.foldl (fun os f => os.bind fun u => applyFrag u f 0) (some s) = some s1 ∧
      SlotInv P g s1 ∧ s.received ⊆ s1.received ∧
      ∀ f ∈ fs, fragRange f ⊆ s1.received := by
  induction fs generalizing s with
  | nil => exact ⟨s, rfl, hs, Finset.Subset.refl _, by simp⟩
  | cons f fs ih =>
      obtain ⟨hstep, hinv⟩ :=
        applyFrag_slotInv P g s f 0 hs (hfs f (by simp))
      obtain ⟨s1, hfold, hinv1, hsub1, hall⟩ :=
        ih (fun x hx => hfs x (by simp [hx]))
          { s with received := s.received ∪ fragRange f,
                   buf := writeChunk s.buf f.offset f.chunk, lastUpdated := 0 } hinv
      refine ⟨s1, ?_, hinv1, ?_, ?_⟩
      · rw [List.foldl_cons]
        simp only [Option.some_bind]
        rw [hstep] at *
        exact hfold
      · exact fun i hi => hsub1 (Finset.mem_union_left _ hi)
      · intro x hx
        rcases List.mem_cons.mp hx with hx | hx
        · subst hx
          exact fun i hi => hsub1 (Finset.mem_union_right _ hi)
        · exact hall x hx

theorem mkSubsequentAux_sound (P : List ℕ) (g fn : ℕ) (hfn : 0 < fn) :
    ∀ (fuel off : ℕ) (rem : List ℕ), rem = P.drop off → rem.length ≤ fuel →
      (∀ f ∈ mkSubsequentAux g P.length fn fuel off rem, FragOf P g f) ∧
      (∀ i, off ≤ i → i < off + rem.length →
        ∃ f ∈ mkSubsequentAux g P.length fn fuel off rem,
          f.offset ≤ i ∧ i < f.offset + f.chunk.length) := by
  intro fuel
  induction fuel with
  | zero =>
      intro off rem hrem hlen
      constructor
      · intro f hf
        simp [mkSubsequentAux] at hf
      · intro i h1 h2
        omega
  | succ fuel ih =>
      intro off rem hrem hlen
      cases rem with
      | nil =>
          constructor
          · intro f hf
            simp [mkSubsequentAux] at hf
          · intro i h1 h2
            simp only [List.length_nil] at h2
            omega
      | cons r rs =>
          have hunfold : mkSubsequentAux g P.length fn (fuel + 1) off (r :: rs) =
              ⟨g, P.length, off, (r :: rs).take fn⟩ ::
                mkSubsequentAux g P.length fn fuel (off + fn) ((r :: rs).drop fn) := rfl
          have hlenrem : (r :: rs).length = P.length - off := by
            rw [hrem, List.length_drop]
          have hoff_lt : off < P.length := by
            simp only [List.length_cons] at hlenrem
            omega
          have hdrop : (r :: rs).drop fn = P.drop (off + fn) := by
            rw [hrem, List.drop_drop]
          have hlen2 : ((r :: rs).drop fn).length ≤ fuel := by
            rw [List.length_drop]
            simp only [List.length_cons] at hlen ⊢
            omega
          obtain ⟨ihA, ihB⟩ := ih (off + fn) ((r :: rs).drop fn) hdrop hlen2
          have hhead : FragOf P g ⟨g, P.length, off, (r :: rs).take fn⟩ := by
            refine ⟨rfl, rfl, ?_, ?_⟩
            · simp only [List.length_take]
              omega
            · show (r :: rs).take fn = (P.drop off).take ((r :: rs).take fn).length
              rw [← hrem, List.length_take]
              exact (take_min (r :: rs) fn).symm
          constructor
          · intro f hf
            rw [hunfold] at hf
            rcases List.mem_cons.mp hf with hf | hf
            · rw [hf]
              exact hhead
            · exact ihA f hf
          · intro i h1 h2
            rw [hunfold]
            by_cases hin : i < off + ((r :: rs).take fn).length
            · exact ⟨⟨g, P.length, off, (r :: rs).take fn⟩, List.mem_cons_self _ _, h1, hin⟩
            · simp only [List.length_take] at hin
              simp only [List.length_cons] at h2 hin
              obtain ⟨f, hfmem, hf1, hf2⟩ :=
                ihB i (by omega) (by rw [List.length_drop]; simp only [List.length_cons]; omega)
              exact ⟨f, List.mem_cons_of_mem _ hfmem, hf1, hf2⟩

theorem fragment_sound (P : List ℕ) (mtu g : ℕ) (frags : List Frag)
    (h : fragment P mtu g = Except.ok frags) :
    (∀ f ∈ frags, FragOf P g f) ∧ Covers P frags ∧ frags ≠ [] := by
  unfold fragment at h
  by_cases h1 : MAX_FRAG_DATAGRAM_SIZE < P.length
  · rw [if_pos h1] at h
    exact absurd h (by simp)
  · rw [if_neg h1] at h
    by_cases h2 : P.length ≤ mtu
    · rw [if_pos h2] at h
      injection h with h4
      subst h4
      refine ⟨?_, ?_, by simp⟩
      · intro f hf
        simp only [List.mem_singleton] at hf
        rw [hf]
        exact ⟨rfl, rfl, by simp, by simp⟩
      · intro i hi
        exact ⟨⟨g, P.length, 0, P⟩, List.mem_singleton_self _, by simp, by simpa using hi⟩
    · rw [if_neg h2] at h
      by_cases h3 : fragNSize mtu = 0
      · rw [if_pos h3] at h
        exact absurd h (by simp)
      · rw [if_neg h3] at h
        injection h with h4
        subst h4
        have hfn : 0 < fragNSize mtu := by omega
        have hf1le : frag1Size mtu ≤ mtu := by
          have := Nat.div_mul_le_self (mtu - SIXLOWPAN_FRAG1_HDR_LEN) 8
          unfold frag1Size
          omega
        have hf1lt : frag1Size mtu < P.length := by omega
        obtain ⟨ihA, ihB⟩ := mkSubsequentAux_sound P g (fragNSize mtu) hfn
          (P.drop (frag1Size mtu)).length (frag1Size mtu) (P.drop (frag1Size mtu)) rfl
          (Nat.le_refl _)
        have hhead : FragOf P g ⟨g, P.length, 0, P.take (frag1Size mtu)⟩ := by
          refine ⟨rfl, rfl, ?_, ?_⟩
          · simp only [List.length_take]
            omega
          · show P.take (frag1Size mtu) = (P.drop 0).take ((P.take (frag1Size mtu)).length)
            rw [List.drop_zero, List.length_take]
            exact (take_min P (frag1Size mtu)).symm
        refine ⟨?_, ?_, by simp⟩
        · intro f hf
          rcases List.mem_cons.mp hf with hf | hf
          · rw [hf]
            exact hhead
          · exact ihA f hf
        · intro i hi
          by_cases hin : i < frag1Size mtu
          · refine ⟨⟨g, P.length, 0, P.take (frag1Size mtu)⟩, List.mem_cons_self _ _,
              Nat.zero_le i, ?_⟩
            show i < 0 + (P.take (frag1Size mtu)).length
            simp only [List.length_take]
            omega
          · obtain ⟨f, hfmem, hc1, hc2⟩ :=
              ihB i (by omega) (by rw [List.length_drop]; omega)
            exact ⟨f, List.mem_cons_of_mem _ hfmem, hc1, hc2⟩

/-- C2: feeding the fragment sequence produced by the fragmenter to the
reassembly procedure in any arrival order — any list containing exactly
the produced fragments, reordered and with duplicates — reconstructs
exactly the original payload. -/
theorem C2_fragmentation_roundtrip (P : List ℕ) (mtu g : ℕ) (frags arrivals : List Frag)
    (hfrag : fragment P mtu g = Except.ok frags)
    (hsub : ∀ f ∈ frags, f ∈ arrivals) (hsup : ∀ f ∈ arrivals, f ∈ frags) :
    reassemble arrivals = some P := by
  obtain ⟨hgood, hcov, hne⟩ := fragment_sound P mtu g frags hfrag
  cases arrivals with
  | nil =>
      cases frags with
      | nil => exact absurd rfl hne
      | cons a fs => exact absurd (hsub a (List.mem_cons_self a fs)) (by simp)
  | cons a rest =>
      have ha : a ∈ frags := hsup a (List.mem_cons_self a rest)
      obtain ⟨hat, has, _, _⟩ := hgood a ha
      have hinv0 : SlotInv P g (freshSlot 0 a.tag a.size 0) := by
        refine ⟨hat, has, by simp [freshSlot, has], ?_⟩
        intro i hi
        simp [freshSlot] at hi
      obtain ⟨s1, hfold, ⟨h1t, h1s, h1b, h1r⟩, hsubr, hall⟩ :=
        foldl_applyFrag P g (a :: rest) (fun f hf => hgood f (hsup f hf))
          (freshSlot 0 a.tag a.size 0) hinv0
      have hcomplete : Finset.range s1.size ⊆ s1.received := by
        intro i hi
        rw [Finset.mem_range, h1s] at hi
        obtain ⟨f, hfmem, hc1, hc2⟩ := hcov i hi
        exact hall f (hsub f hfmem) (Finset.mem_Ico.mpr ⟨hc1, hc2⟩)
      have hsc : slotComplete s1 = true := by
        unfold slotComplete
        exact decide_eq_true hcomplete
      have hbuf : s1.buf = P := by
        apply List.ext_getElem?
        intro i
        by_cases hi : i < P.length
        · have hirecv : i ∈ s1.received := by
            apply hcomplete
            rw [Finset.mem_range, h1s]
            exact hi
          exact (h1r i hirecv).2
        · rw [List.getElem?_eq_none (by omega : P.length ≤ i),
            List.getElem?_eq_none (by rw [h1b]; omega)]
      show (match List.foldl (fun os f => os.bind fun u => applyFrag u f 0)
            (some (freshSlot 0 a.tag a.size 0)) (a :: rest) with
          | none => none
          | some s => if slotComplete s then some s.buf else none) = some P
      rw [hfold]
      show (if slotComplete s1 then some s1.buf else none) = some P
      rw [hsc, hbuf]
      simp

/-- Witness for C2: a 20-byte payload over a 13-byte MTU splits into
three fragments; an arrival order that is reversed and repeats the first
fragment still reassembles to the payload. -/
theorem C2_fragmentation_roundtrip_witness :
    reassemble
        [⟨7, 20, 16, [16, 17, 18, 19]⟩, ⟨7, 20, 0, [0, 1, 2, 3, 4, 5, 6, 7]⟩,
          ⟨7, 20, 8, [8, 9, 10, 11, 12, 13, 14, 15]⟩,
          ⟨7, 20, 0, [0, 1, 2, 3, 4, 5, 6, 7]⟩] =
      some [0, 1, 2, 3, 4, 5, 6, 7, 8, 9, 10, 11, 12, 13, 14, 15, 16, 17, 18, 19] :=
  C2_fragmentation_roundtrip
    [0, 1, 2, 3, 4, 5, 6, 7, 8, 9, 10, 11, 12, 13, 14, 15, 16, 17, 18, 19] 13 7
    [⟨7, 20, 0, [0, 1, 2, 3, 4, 5, 6, 7]⟩, ⟨7, 20, 8, [8, 9, 10, 11, 12, 13, 14, 15]⟩,
      ⟨7, 20, 16, [16, 17, 18, 19]⟩]
    [⟨7, 20, 16, [16, 17, 18, 19]⟩, ⟨7, 20, 0, [0, 1, 2, 3, 4, 5, 6, 7]⟩,
      ⟨7, 20, 8, [8, 9, 10, 11, 12, 13, 14, 15]⟩,
      ⟨7, 20, 0, [0, 1, 2, 3, 4, 5, 6, 7]⟩]
    rfl (by decide) (by decide)

theorem pow_256_8 : (256 : ℕ) ^ 8 = 2 ^ 64 := by norm_num

theorem pow_256_2 : (256 : ℕ) ^ 2 = 2 ^ 16 := by norm_num

theorem pow_256_3 : (256 : ℕ) ^ 3 = 2 ^ 24 := by norm_num

theorem readBytes_one (b : ℕ) (l : List ℕ) : readBytes 1 (b :: l) = some (b, l) := by
  simp [readBytes]

theorem findContext_sound (C : ContextTable) (p cid : ℕ)
    (h : findContext C p = some cid) : ctxLookup C cid = some p ∧ cid < 16 := by
  unfold findContext at h
  have h1 := List.find?_some h
  have h2 := List.mem_of_find?_eq_some h
  rw [List.mem_range] at h2
  exact ⟨by simpa using h1, h2⟩

theorem decNh_encNh (nh : ℕ) : decNh (encNh nh).1 (encNh nh).2 = some nh := by
  by_cases h17 : nh = 17
  · simp [encNh, decNh, h17]
  · by_cases h58 : nh = 58
    · simp [encNh, decNh, h17, h58]
    · simp [encNh, decNh, h17, h58]

theorem decNhStream_enc (nh : ℕ) (rest : List ℕ) :
    decNhStream (encNh nh).1 ((encNh nh).2 :: rest) = some (nh, rest) := by
  simp [decNhStream, decNh_encNh]

theorem decTcFl_enc (tc fl : ℕ) (hfl : fl < 2 ^ 20) (rest : List ℕ) :
    decTcFl (fl == 0) (tc == 0) (encTcFl tc fl ++ rest) = some ((tc, fl), rest) := by
  have hfl3 : fl < 256 ^ 3 := by rw [pow_256_3]; omega
  by_cases hf : fl = 0
  · subst hf
    by_cases ht : tc = 0
    · subst ht
      simp [encTcFl, decTcFl]
    · have htb : (tc == 0) = false := beq_eq_false_iff_ne.mpr ht
      simp [encTcFl, decTcFl, ht, htb]
  · have hfb : (fl == 0) = false := beq_eq_false_iff_ne.mpr hf
    by_cases ht : tc = 0
    · subst ht
      simp [encTcFl, decTcFl, hf, hfb, readBytes_natBytes 3 fl rest hfl3]
    · have htb : (tc == 0) = false := beq_eq_false_iff_ne.mpr ht
      simp [encTcFl, decTcFl, hf, ht, hfb, htb, readBytes_natBytes 3 fl rest hfl3]

theorem decCid_enc (scid dcid : ℕ) (hs : scid < 16) (hd : dcid < 16) (rest : List ℕ) :
    decCid ((scid != 0) || (dcid != 0))
        ((if (scid != 0) || (dcid != 0) then [scid * 16 + dcid] else []) ++ rest) =
      some ((scid, dcid), rest) := by
  cases hb : ((scid != 0) || (dcid != 0)) with
  | false =>
      have h0 : scid = 0 ∧ dcid = 0 := by simpa using hb
      obtain ⟨h1, h2⟩ := h0
      subst h1; subst h2
      simp [decCid]
  | true =>
      simp only [hb, if_true, List.cons_append, List.nil_append, decCid]
      have e1 : (scid * 16 + dcid) / 16 = scid := by omega
      have e2 : (scid * 16 + dcid) % 16 = dcid := by omega
      rw [e1, e2]

theorem packB1_div32 (a b c : Bool) : packB1 a b c / 32 = 3 := by
  cases a <;> cases b <;> cases c <;> decide

theorem packB1_fl (a b c : Bool) : (packB1 a b c / 16 % 2 == 1) = a := by
  cases a <;> cases b <;> cases c <;> decide

theorem packB1_tc (a b c : Bool) : (packB1 a b c / 8 % 2 == 1) = b := by
  cases a <;> cases b <;> cases c <;> decide

theorem packB1_nh (a b c : Bool) : (packB1 a b c / 4 % 2 == 1) = c := by
  cases a <;> cases b <;> cases c <;> decide

theorem packB2_cid (cidF sac m dac : Bool) (sam dam : ℕ) (hsam : sam < 4) (hdam : dam < 4) :
    (packB2 cidF sac sam m dac dam / 128 % 2 == 1) = cidF := by
  cases cidF <;> cases sac <;> cases m <;> cases dac <;>
    simp only [packB2, SIXLOWPAN_IPHC2_CID, SIXLOWPAN_IPHC2_SAC, SIXLOWPAN_IPHC2_M,
      SIXLOWPAN_IPHC2_DAC, cond_true, cond_false] <;>
    first
      | (rw [beq_iff_eq]; omega)
      | (rw [beq_eq_false_iff_ne]; omega)

theorem packB2_sam (cidF sac m dac : Bool) (sam dam : ℕ) (hsam : sam < 4) (hdam : dam < 4) :
    packB2 cidF sac sam m dac dam / 16 % 4 = sam := by
  cases cidF <;> cases sac <;> cases m <;> cases dac <;>
    simp only [packB2, SIXLOWPAN_IPHC2_CID, SIXLOWPAN_IPHC2_SAC, SIXLOWPAN_IPHC2_M,
      SIXLOWPAN_IPHC2_DAC, cond_true, cond_false] <;>
    omega

theorem packB2_m (cidF sac m dac : Bool) (sam dam : ℕ) (hsam : sam < 4) (hdam : dam < 4) :
    (packB2 cidF sac sam m dac dam / 8 % 2 == 1) = m := by
  cases cidF <;> cases sac <;> cases m <;> cases dac <;>
    simp only [packB2, SIXLOWPAN_IPHC2_CID, SIXLOWPAN_IPHC2_SAC, SIXLOWPAN_IPHC2_M,
      SIXLOWPAN_IPHC2_DAC, cond_true, cond_false] <;>
    first
      | (rw [beq_iff_eq]; omega)
      | (rw [beq_eq_false_iff_ne]; omega)

theorem packB2_dam (cidF sac m dac : Bool) (sam dam : ℕ) (hsam : sam < 4) (hdam : dam < 4) :
    packB2 cidF sac sam m dac dam % 4 = dam := by
  cases cidF <;> cases sac <;> cases m <;> cases dac <;>
    simp only [packB2, SIXLOWPAN_IPHC2_CID, SIXLOWPAN_IPHC2_SAC, SIXLOWPAN_IPHC2_M,
      SIXLOWPAN_IPHC2_DAC, cond_true, cond_false] <;>
    omega

theorem compressAddr_mode_lt (C : ContextTable) (ll : ℕ) (a : Ipv6Addr) :
    (compressAddr C ll a).mode < 4 := by
  unfold compressAddr
  cases hfc : findContext C a.pre with
  | none => simp
  | some cid => split_ifs <;> simp

theorem compressAddr_cid_lt (C : ContextTable) (ll : ℕ) (a : Ipv6Addr) :
    (compressAddr C ll a).cid < 16 := by
  unfold compressAddr
  cases hfc : findContext C a.pre with
  | none => simp
  | some cid =>
      have h16 := (findContext_sound C a.pre cid hfc).2
      split_ifs <;> simpa using h16

theorem decompressAddr_full (C : ContextTable) (ll cid p q : ℕ) (rest : List ℕ)
    (hp : p < 2 ^ 64) (hq : q < 2 ^ 64) :
    decompressAddr C ll 0 cid (natBytes 8 p ++ natBytes 8 q ++ rest) =
      some (⟨p, q⟩, rest) := by
  unfold decompressAddr
  rw [List.append_assoc, readBytes_natBytes 8 p _ (by rw [pow_256_8]; exact hp)]
  simp only [Option.some_bind]
  rw [readBytes_natBytes 8 q rest (by rw [pow_256_8]; exact hq)]
  rfl

theorem decompressAddr_compressAddr (C : ContextTable) (ll : ℕ) (a : Ipv6Addr)
    (rest : List ℕ) (hpre : a.pre < 2 ^ 64) (hiid : a.iid < 2 ^ 64) :
    decompressAddr C ll (compressAddr C ll a).mode (compressAddr C ll a).cid
      ((compressAddr C ll a).bytes ++ rest) = some (a, rest) := by
  unfold compressAddr
  cases hfc : findContext C a.pre with
  | none =>
      simp only []
      exact decompressAddr_full C ll 0 a.pre a.iid rest hpre hiid
  | some cid =>
      obtain ⟨hctx, _⟩ := findContext_sound C a.pre cid hfc
      by_cases h1 : a.iid = ll
      · simp only [if_pos h1]
        unfold decompressAddr
        rw [hctx]
        simp [h1.symm]
      · by_cases h2 : a.iid < 2 ^ 16
        · simp only [if_neg h1, if_pos h2]
          unfold decompressAddr
          rw [hctx]
          simp only [Option.some_bind]
          rw [readBytes_natBytes 2 a.iid rest (by rw [pow_256_2]; exact h2)]
          rfl
        · simp only [if_neg h1, if_neg h2]
          unfold decompressAddr
          rw [hctx]
          simp only [Option.some_bind]
          rw [readBytes_natBytes 8 a.iid rest (by rw [pow_256_8]; exact hiid)]
          rfl

theorem compressDst_mode_lt (C : ContextTable) (ll : ℕ) (a : Ipv6Addr) :
    (compressDst C ll a).mode < 4 := by
  unfold compressDst
  by_cases hm : isMulticastAddr a
  · simp [hm]
  · simpa [hm] using compressAddr_mode_lt C ll a

theorem compressDst_cid_lt (C : ContextTable) (ll : ℕ) (a : Ipv6Addr) :
    (compressDst C ll a).cid < 16 := by
  unfold compressDst
  by_cases hm : isMulticastAddr a
  · simp [hm]
  · simpa [hm] using compressAddr_cid_lt C ll a

theorem decDst_compressDst (C : ContextTable) (ll : ℕ) (a : Ipv6Addr) (rest : List ℕ)
    (hpre : a.pre < 2 ^ 64) (hiid : a.iid < 2 ^ 64) :
    decDst C ll (compressDst C ll a).m (compressDst C ll a).mode (compressDst C ll a).cid
      ((compressDst C ll a).bytes ++ rest) = some (a, rest) := by
  unfold compressDst
  by_cases hm : isMulticastAddr a
  · simp only [if_pos hm]
    unfold decDst
    simp only [if_true]
    exact decompressAddr_full C ll 0 a.pre a.iid rest hpre hiid
  · simp only [if_neg hm]
    unfold decDst
    simp only [Bool.false_eq_true, if_false]
    exact decompressAddr_compressAddr C ll a rest hpre hiid

/-- C1: for every valid IPv6 header, payload and context-table
configuration, decompressing the LOWPAN_IPHC compression of the header
yields the header again with every field bit-for-bit equal — covering
all four traffic-class/flow-label elision sub-cases and both
address-elision outcomes (interface identifier derived from the
link-layer address, mode 3, and address matched against a context
entry's routing portion, modes 1/2). -/
theorem C1_iphc_roundtrip (C : ContextTable) (llsrc lldst : ℕ) (H : Ipv6Header)
    (payload : List ℕ) (hv : ValidHeader H) (hlen : H.payloadLength = payload.length) :
    iphc_decompress C llsrc lldst (iphc_compress C llsrc lldst H payload) =
      some (H, payload) := by
  obtain ⟨h6, htc, hfl, hpl, hnh, hhop, hsp, hsi, hdp, hdi⟩ := hv
  obtain ⟨v, tc, fl, pl, nh, hop, sa, da⟩ := H
  dsimp only at h6 htc hfl hpl hnh hhop hsp hsi hdp hdi hlen
  subst h6
  subst hlen
  have hsmode := compressAddr_mode_lt C llsrc sa
  have hdmode := compressDst_mode_lt C lldst da
  unfold iphc_compress
  dsimp only
  unfold iphc_decompress
  dsimp only
  rw [if_pos (packB1_div32 _ _ _)]
  rw [packB1_fl, packB1_tc, packB1_nh]
  rw [packB2_cid _ _ _ _ _ _ hsmode hdmode, packB2_sam _ _ _ _ _ _ hsmode hdmode,
    packB2_m _ _ _ _ _ _ hsmode hdmode, packB2_dam _ _ _ _ _ _ hsmode hdmode]
  rw [decCid_enc _ _ (compressAddr_cid_lt C llsrc sa) (compressDst_cid_lt C lldst da)]
  simp only [Option.some_bind]
  rw [decTcFl_enc tc fl hfl]
  simp only [Option.some_bind]
  rw [decNhStream_enc nh]
  simp only [Option.some_bind]
  rw [readBytes_one]
  simp only [Option.some_bind]
  rw [decompressAddr_compressAddr C llsrc sa _ hsp hsi]
  simp only [Option.some_bind]
  rw [decDst_compressDst C lldst da payload hdp hdi]
  simp only [Option.some_bind]

/-- Witness for C1 at four concrete headers, one per traffic-class /
flow-label elision sub-case, exercising link-layer-derived elision
(mode 3, both via the implicit link-local context and via an explicit
context with a CID byte), context-based 64-bit and 16-bit interface
identifiers (modes 1 and 2), full inline addresses (mode 0), compressed
(UDP, ICMPv6) and inline next headers, and a multicast destination. -/
theorem C1_iphc_roundtrip_witness :
    iphc_decompress [] 0x1122 3
        (iphc_compress [] 0x1122 3
          ⟨6, 0, 0, 0, 59, 64, ⟨LINK_LOCAL_PRE, 0x1122⟩, ⟨0xaaaa, 0xbbbb⟩⟩ []) =
      some (⟨6, 0, 0, 0, 59, 64, ⟨LINK_LOCAL_PRE, 0x1122⟩, ⟨0xaaaa, 0xbbbb⟩⟩, []) ∧
    iphc_decompress [] 8 9
        (iphc_compress [] 8 9
          ⟨6, 0, 7, 1, 58, 64, ⟨3, 4⟩, ⟨LINK_LOCAL_PRE, 9⟩⟩ [5]) =
      some (⟨6, 0, 7, 1, 58, 64, ⟨3, 4⟩, ⟨LINK_LOCAL_PRE, 9⟩⟩, [5]) ∧
    iphc_decompress [(1, 0x2001)] 6 7
        (iphc_compress [(1, 0x2001)] 6 7
          ⟨6, 5, 0, 2, 17, 255, ⟨0x2001, 0x12345⟩, ⟨0x2001, 0x42⟩⟩ [1, 2]) =
      some (⟨6, 5, 0, 2, 17, 255, ⟨0x2001, 0x12345⟩, ⟨0x2001, 0x42⟩⟩, [1, 2]) ∧
    iphc_decompress [(1, 0x2001)] 0x50 2
        (iphc_compress [(1, 0x2001)] 0x50 2
          ⟨6, 5, 7, 1, 17, 1, ⟨0x2001, 0x50⟩, ⟨0xff02 * 2 ^ 48 + 1, 3⟩⟩ [9]) =
      some (⟨6, 5, 7, 1, 17, 1, ⟨0x2001, 0x50⟩, ⟨0xff02 * 2 ^ 48 + 1, 3⟩⟩, [9]) :=
  ⟨C1_iphc_roundtrip [] 0x1122 3 _ [] (by decide) (by decide),
    C1_iphc_roundtrip [] 8 9 _ [5] (by decide) (by decide),
    C1_iphc_roundtrip [(1, 0x2001)] 6 7 _ [1, 2] (by decide) (by decide),
    C1_iphc_roundtrip [(1, 0x2001)] 0x50 2 _ [9] (by decide) (by decide)⟩
